/-
Verification development for the math-type quiz evaluation engine.

The engine lives in `src/utils/evaluation.ts` (normalizer, comparator,
per-type evaluators, aggregator) and `src/utils/supabase-edge.ts`
(step-grading adapter).  Strings are modelled as `List Char`; JavaScript
regular-expression operations are modelled by explicit character scans
that follow the semantics of the concrete regexes used in the source.
JavaScript `number` arithmetic on the small non-negative quantities used
for mark computation is modelled by exact rational arithmetic (the
literal `0.7` is modelled as `7/10`).
-/
import Mathlib

namespace MathType

/-- Strings are modelled as lists of characters. -/
abbrev Str := List Char

/-- JavaScript `\s` (ASCII fragment): space, tab, LF, CR, VT, FF. -/
def isWsChar (c : Char) : Bool :=
  c = ' ' || c = '\t' || c = '\n' || c = '\r' || c = '\x0b' || c = '\x0c'

/-- The 26 ASCII upper/lower-case letter pairs. -/
def lowerPairs : List (Char × Char) :=
  [('A','a'),('B','b'),('C','c'),('D','d'),('E','e'),('F','f'),('G','g'),
   ('H','h'),('I','i'),('J','j'),('K','k'),('L','l'),('M','m'),('N','n'),
   ('O','o'),('P','p'),('Q','q'),('R','r'),('S','s'),('T','t'),('U','u'),
   ('V','v'),('W','w'),('X','x'),('Y','y'),('Z','z')]

/-- ASCII model of JavaScript `String.prototype.toLowerCase`, one character
at a time. -/
def jsToLower (c : Char) : Char :=
  match lowerPairs.find? (fun p => p.1 = c) with
  | some p => p.2
  | none => c

/-- JavaScript `String.prototype.trim` (ASCII whitespace model). -/
def jsTrim (s : Str) : Str :=
  ((s.dropWhile isWsChar).reverse.dropWhile isWsChar).reverse

/-- Fueled global literal replacement: scans left to right, replacing each
non-overlapping occurrence of `pat` with `rep`; matches are found in the
input only (the replacement text is never rescanned), exactly as
JavaScript `String.prototype.replace` with a `g`-flagged literal pattern. -/
def replaceAllF (pat rep : Str) : Nat → Str → Str
  | 0, s => s
  | _ + 1, [] => []
  | n + 1, c :: rest =>
    if pat ≠ [] ∧ pat.isPrefixOf (c :: rest) then
      rep ++ replaceAllF pat rep n (rest.drop (pat.length - 1))
    else
      c :: replaceAllF pat rep n rest

/-- Global literal replacement (`s.replace(/pat/g, rep)` for a literal
pattern). -/
def replaceAll (pat rep s : Str) : Str :=
  replaceAllF pat rep s.length s

/-!
## Expression Normalizer

Embedding of `normalizeMathExpression` (evaluation.ts, lines 9-36).
`latex.replace(/\s+/g, '')` removes every whitespace character, so it is
modelled by a filter; the remaining `replace` calls use `g`-flagged
literal patterns and are modelled by `replaceAll`; the final
`toLowerCase()` is modelled by `jsToLower` on each character.
-/

/-- The ten literal replacements of `normalizeMathExpression`, in source
order. -/
def replacementChain (n0 : Str) : Str :=
  let n1 := replaceAll "\\times".toList "*".toList n0
  let n2 := replaceAll "\\cdot".toList "*".toList n1
  let n3 := replaceAll "\\div".toList "/".toList n2
  let n4 := replaceAll "\\sin".toList "sin".toList n3
  let n5 := replaceAll "\\cos".toList "cos".toList n4
  let n6 := replaceAll "\\tan".toList "tan".toList n5
  let n7 := replaceAll "\\pi".toList "pi".toList n6
  let n8 := replaceAll "\\theta".toList "theta".toList n7
  let n9 := replaceAll "\\left(".toList "(".toList n8
  replaceAll "\\right)".toList ")".toList n9

def normalizeMathExpression (latex : Str) : Str :=
  if latex = [] then []
  else (replacementChain (latex.filter (fun c => !isWsChar c))).map jsToLower

/-!
## Equation-value extractor

Embedding of `extractValueFromEquation` (evaluation.ts, lines 42-76).
The JavaScript regexes are modelled by character scans:

* `cleaned.replace(/\s+/g, ' ')` collapses every whitespace run to one
  space (`collapseWs`);
* `cleaned.split(/\s+(?:or|and)\s+/i)`: after collapsing, every
  whitespace run is a single `' '`, so the separator is one space, the
  word `or` or `and` (case-insensitive), one space (`splitOrAnd`);
* `part.match(/=\s*([^,]+)/)` and
  `cleaned.match(/=\s*([^,]+(?:,\s*[^,]+)*)/)` are modelled by scans that
  reproduce the engine's leftmost-match search and the backtracking of
  the greedy `\s*` when `[^,]+` would otherwise fail (in that case
  `[^,]+` consumes the last whitespace character).
-/

/-- `s.replace(/\s+/g, ' ')`: collapse whitespace runs to single spaces.
The flag records whether the previous character was whitespace. -/
def collapseWsAux : Bool → Str → Str
  | _, [] => []
  | prevWs, c :: rest =>
    if isWsChar c then
      if prevWs then collapseWsAux true rest
      else ' ' :: collapseWsAux true rest
    else c :: collapseWsAux false rest

def collapseWs (s : Str) : Str := collapseWsAux false s

/-- Case-insensitive prefix test (used for the `i`-flagged regex). -/
def ciHasPrefix (pat s : Str) : Bool :=
  (s.take pat.length).map jsToLower = pat

/-- `cleaned.split(/\s+(?:or|and)\s+/i)` on a whitespace-collapsed string:
scan for `' '` followed by `or`/`and` (case-insensitive) followed by
`' '`; cut a part at every such separator.  `acc` holds the current part
reversed. -/
def splitOrAndF : Nat → Str → Str → List Str
  | 0, acc, s => [acc.reverse ++ s]
  | _ + 1, acc, [] => [acc.reverse]
  | n + 1, acc, c :: rest =>
    if c = ' ' then
      if ciHasPrefix "or ".toList rest then
        acc.reverse :: splitOrAndF n [] (rest.drop 3)
      else if ciHasPrefix "and ".toList rest then
        acc.reverse :: splitOrAndF n [] (rest.drop 4)
      else splitOrAndF n (c :: acc) rest
    else splitOrAndF n (c :: acc) rest

def splitOrAnd (s : Str) : List Str := splitOrAndF s.length [] s

/-- Attempt of `\s*([^,]+)` on the text `t` that follows a matched `=`.
Greedy `\s*` consumes the whitespace run `w`; if the remainder `r` starts
with a non-comma character, the group is the maximal comma-free prefix of
`r`; if `[^,]+` would fail (`r` empty or starting with `,`), the engine
backtracks `\s*` by one character and `[^,]+` consumes the last
whitespace character of `w`; with no whitespace to give back the attempt
fails. -/
def r1After (t : Str) : Option Str :=
  let w := t.takeWhile isWsChar
  let r := t.dropWhile isWsChar
  match r with
  | rc :: _ =>
    if rc = ',' then
      match w.getLast? with
      | some lw => some [lw]
      | none => none
    else some (r.takeWhile (fun c => c ≠ ','))
  | [] =>
    match w.getLast? with
    | some lw => some [lw]
    | none => none

/-- First match of `part.match(/=\s*([^,]+)/)`: leftmost `=` whose
continuation admits the group; on failure the engine resumes the scan at
the next position. Returns the captured group. -/
def r1Scan : Str → Option Str
  | [] => none
  | c :: rest =>
    if c = '=' then
      match r1After rest with
      | some g => some g
      | none => r1Scan rest
    else r1Scan rest

/-- Matched text of `(?:,\s*[^,]+)*` starting at `u` (greedy, as many
iterations as possible; within an iteration `\s*` backtracks one
character when `[^,]+` would otherwise fail). -/
def r2Stars : Nat → Str → Str
  | 0, _ => []
  | n + 1, u =>
    match u with
    | ',' :: v =>
      let w2 := v.takeWhile isWsChar
      let r2 := v.dropWhile isWsChar
      match r2 with
      | rc :: _ =>
        if rc = ',' then
          match w2.getLast? with
          | some _ => (',' :: w2) ++ r2Stars n r2
          | none => []
        else
          let seg := r2.takeWhile (fun c => c ≠ ',')
          ((',' :: w2) ++ seg) ++ r2Stars n (r2.dropWhile (fun c => c ≠ ','))
      | [] =>
        match w2.getLast? with
        | some _ => ',' :: w2
        | none => []
    | _ => []

/-- Attempt of `\s*([^,]+(?:,\s*[^,]+)*)` on the text following a matched
`=`; same backtracking as `r1After`, then the greedy star. -/
def r2After (t : Str) : Option Str :=
  let w := t.takeWhile isWsChar
  let r := t.dropWhile isWsChar
  match r with
  | rc :: _ =>
    if rc = ',' then
      match w.getLast? with
      | some lw => some ([lw] ++ r2Stars r.length r)
      | none => none
    else
      let first := r.takeWhile (fun c => c ≠ ',')
      let rest1 := r.dropWhile (fun c => c ≠ ',')
      some (first ++ r2Stars rest1.length rest1)
  | [] =>
    match w.getLast? with
    | some lw => some [lw]
    | none => none

/-- First match of `cleaned.match(/=\s*([^,]+(?:,\s*[^,]+)*)/)`,
returning the captured group. -/
def r2Scan : Str → Option Str
  | [] => none
  | c :: rest =>
    if c = '=' then
      match r2After rest with
      | some g => some g
      | none => r2Scan rest
    else r2Scan rest

/-- Embedding of `extractValueFromEquation` (evaluation.ts, lines 42-76). -/
def extractValueFromEquation (latex : Str) : List Str :=
  if latex = [] then []
  else
    -- cleaned = latex.replace(/\\/g, '').replace(/\s+/g, ' ')
    let cleaned := collapseWs (latex.filter (fun c => c ≠ '\\'))
    let splitParts := splitOrAnd cleaned
    if splitParts.length > 1 then
      splitParts.map (fun part =>
        match r1Scan part with
        | some g => jsTrim g
        | none => jsTrim part)
    else
      match r2Scan cleaned with
      | some g => (g.splitOn ',').map jsTrim
      | none => [jsTrim cleaned]

/-!
## Expression Comparator

Embedding of `compareMathExpressions` (evaluation.ts, lines 81-125).
The JavaScript `Set` of normalized values is modelled by `List.dedup`
(only its cardinality and membership are used).
-/

def compareMathExpressions (student correct : Str) : Bool :=
  if student = [] || correct = [] then false
  else
    let normalizedStudent := normalizeMathExpression student
    let normalizedCorrect := normalizeMathExpression correct
    if normalizedStudent = normalizedCorrect then true
    else
      let studentValues := extractValueFromEquation student
      let correctValues := extractValueFromEquation correct
      let studentSet := (studentValues.map normalizeMathExpression).dedup
      let correctSet := (correctValues.map normalizeMathExpression).dedup
      if studentValues.length > 0 && correctValues.length > 0
          && studentSet.length == correctSet.length then
        correctSet.all (fun val => decide (val ∈ studentSet))
      else
        correctValues.any (fun correctVal =>
          studentValues.any (fun studentVal =>
            normalizeMathExpression studentVal = normalizeMathExpression correctVal))

/-!
## Data model

Embedding of the evaluation-relevant part of `src/types.ts`.  Optional
fields become `Option`; `Record<string, string>` becomes an association
list with first-match lookup (JavaScript objects have distinct keys);
numbers holding marks are `Nat`.
-/

inductive QuestionType where
  | mcq
  | openEnded
  | fillInTheBlank
deriving DecidableEq, Repr

structure AnswerBox where
  id : Str
  label : Str
  answer : Str
deriving DecidableEq, Repr

structure MCQOption where
  id : Str
  label : Str
  isCorrect : Bool
deriving DecidableEq, Repr

structure Question where
  id : Str
  instruction : Str
  questionType : Option QuestionType
  answerBoxes : Option (List AnswerBox)
  mcqOptions : Option (List MCQOption)
  marks : Option Nat
deriving DecidableEq, Repr

structure StepEvaluation where
  stepIndex : Nat
  stepContent : Str
  isCorrect : Bool
  feedback : Str
  marksAwarded : Option Nat
deriving DecidableEq, Repr

structure AIFeedback where
  modelAnswer : List Str
  correctPoints : List Str
  improvementPoints : List Str
deriving DecidableEq, Repr

inductive QStatus where
  | correct
  | incorrect
  | partiallyCorrect
deriving DecidableEq, Repr

/-- `string | string[]`. -/
inductive StrVal where
  | one (s : Str)
  | many (l : List Str)
deriving DecidableEq, Repr

structure EvaluationResult where
  questionId : Str
  isCorrect : Bool
  status : QStatus
  studentAnswer : StrVal
  correctAnswer : StrVal
  finalAnswerCorrect : Bool
  workingSteps : Option (List StepEvaluation) := none
  aiFeedback : Option AIFeedback := none
  marksAwarded : Nat
  maxMarks : Nat
  feedback : Str
deriving DecidableEq, Repr

structure QuizEvaluation where
  results : List EvaluationResult
  totalScore : Nat
  maxScore : Nat
  totalMarksAwarded : Nat
  totalMaxMarks : Nat
  percentage : Nat
deriving DecidableEq, Repr

/-- A submission for one question: sub-key to raw string value
(`Record<string, string>`). -/
abbrev Submission := List (Str × Str)

/-- `record[key] || ''`: failed lookup and the empty string both give `''`. -/
def lookupOrEmpty (sub : Submission) (key : Str) : Str :=
  (sub.lookup key).getD []

/-- `question.marks || 1`: `undefined` and `0` are falsy. -/
def maxMarksOf (q : Question) : Nat :=
  match q.marks with
  | some m => if m = 0 then 1 else m
  | none => 1

/-- `Math.round` on a non-negative quantity: `⌊x + 1/2⌋` (JavaScript
rounds halves toward positive infinity). -/
def jsRound (x : ℚ) : Nat := (⌊x + 1 / 2⌋).toNat

/-!
## MCQ evaluator

Embedding of `evaluateMCQ` (evaluation.ts, lines 130-164).
-/

def evaluateMCQ (question : Question) (studentAnswer : Str) : EvaluationResult :=
  let maxMarks := maxMarksOf question
  match question.mcqOptions with
  | none =>
    { questionId := question.id
      isCorrect := false
      status := .incorrect
      studentAnswer := .one studentAnswer
      correctAnswer := .one []
      finalAnswerCorrect := false
      marksAwarded := 0
      maxMarks := maxMarks
      feedback := "Invalid question format".toList }
  | some opts =>
    let correctOption := opts.find? (fun opt => opt.isCorrect)
    let isCorrect : Bool := match correctOption with
      | some opt => studentAnswer == opt.id
      | none => false
    { questionId := question.id
      isCorrect := isCorrect
      status := if isCorrect then .correct else .incorrect
      studentAnswer := .one studentAnswer
      correctAnswer := .one ((correctOption.map (fun o => o.id)).getD [])
      finalAnswerCorrect := isCorrect
      marksAwarded := if isCorrect then maxMarks else 0
      maxMarks := maxMarks
      feedback := if isCorrect then "Correct!".toList
                  else "Incorrect. Please try again.".toList }

/-!
## Fill-in-the-blank evaluator

Embedding of `evaluateFillInTheBlank` (evaluation.ts, lines 169-240).
The source accumulates `studentAnswerArray` / `correctAnswerArray` /
`correctCount` / `totalCount` in one loop over `answerBoxes`; the loop is
expressed with `map`, `countP` and `length`.
-/

def evaluateFillInTheBlank (question : Question)
    (studentAnswers : Submission) : EvaluationResult :=
  let maxMarks := maxMarksOf question
  if question.answerBoxes = none ∨ question.answerBoxes = some [] then
    { questionId := question.id
      isCorrect := false
      status := .incorrect
      studentAnswer := .many (studentAnswers.map (fun p => p.2))
      correctAnswer := .many []
      finalAnswerCorrect := false
      marksAwarded := 0
      maxMarks := maxMarks
      feedback := "Invalid question format".toList }
  else
    let boxes := question.answerBoxes.getD []
    let studentAnswerArray := boxes.map (fun b => lookupOrEmpty studentAnswers b.id)
    let correctAnswerArray := boxes.map (fun b => b.answer)
    let correctCount :=
      boxes.countP (fun b => compareMathExpressions (lookupOrEmpty studentAnswers b.id) b.answer)
    let totalCount := boxes.length
    let allCorrect := correctCount == totalCount
    let marksAwarded :=
      if totalCount > 0 then jsRound ((correctCount : ℚ) / totalCount * maxMarks)
      else 0
    let status : QStatus :=
      if allCorrect then .correct
      else if correctCount == 0 then .incorrect
      else .partiallyCorrect
    let feedback : Str :=
      if allCorrect then "All blanks filled correctly!".toList
      else if correctCount == 0 then "All answers are incorrect.".toList
      else "Some answers are incorrect. (".toList ++ (toString correctCount).toList
           ++ " of ".toList ++ (toString totalCount).toList ++ " correct)".toList
    { questionId := question.id
      isCorrect := allCorrect
      status := status
      studentAnswer := .many studentAnswerArray
      correctAnswer := .many correctAnswerArray
      finalAnswerCorrect := allCorrect
      marksAwarded := marksAwarded
      maxMarks := maxMarks
      feedback := feedback }

/-!
## Working-steps decoding

`evaluateOpenEnded` recovers the working steps from
`studentAnswers['working-steps-' + question.id]` with
`JSON.parse`, keeping the value only when it is an array
(`Array.isArray`), and falling back to `[]` on a parse error.  The
submissions of this application store the steps as a JSON array of
strings, so `JSON.parse` is modelled for that fragment: a `[`-bracketed,
comma-separated list of double-quoted strings with the single-character
escapes (`\uXXXX` escapes and non-array JSON values are outside the
model and decode to `none`, which the caller turns into `[]` exactly as
the source turns a non-array or unparsable value into `[]`).
-/

def jsonWsChar (c : Char) : Bool :=
  c = ' ' || c = '\t' || c = '\n' || c = '\r'

/-- Parse the body of a JSON string literal (after the opening quote).
Returns the decoded content and the remainder after the closing quote. -/
def parseJsonStrF : Nat → Str → Option (Str × Str)
  | 0, _ => none
  | _ + 1, [] => none
  | n + 1, c :: rest =>
    if c = '"' then some ([], rest)
    else if c = '\\' then
      match rest with
      | [] => none
      | e :: rest2 =>
        match (if e = '"' then some '"'
               else if e = '\\' then some '\\'
               else if e = '/' then some '/'
               else if e = 'n' then some '\n'
               else if e = 't' then some '\t'
               else if e = 'r' then some '\r'
               else if e = 'b' then some '\x08'
               else if e = 'f' then some '\x0c'
               else none) with
        | some d =>
          match parseJsonStrF n rest2 with
          | some (content, rem) => some (d :: content, rem)
          | none => none
        | none => none
    else
      match parseJsonStrF n rest with
      | some (content, rem) => some (c :: content, rem)
      | none => none

/-- After one array item: expect `]` (end) or `,` plus the next string. -/
def parseArrTailF : Nat → Str → Option (List Str × Str)
  | 0, _ => none
  | n + 1, s =>
    match s.dropWhile jsonWsChar with
    | ']' :: rest => some ([], rest)
    | ',' :: rest =>
      match rest.dropWhile jsonWsChar with
      | '"' :: r2 =>
        match parseJsonStrF r2.length r2 with
        | some (str, rem) =>
          match parseArrTailF n rem with
          | some (items, rem2) => some (str :: items, rem2)
          | none => none
        | none => none
      | _ => none
    | _ => none

/-- `JSON.parse` restricted to arrays of strings; `none` models both a
thrown parse error and a non-array value. -/
def parseStringArray (s : Str) : Option (List Str) :=
  match s.dropWhile jsonWsChar with
  | '[' :: rest =>
    match rest.dropWhile jsonWsChar with
    | ']' :: rem => if rem.dropWhile jsonWsChar = [] then some [] else none
    | '"' :: r2 =>
      match parseJsonStrF r2.length r2 with
      | some (str, rem) =>
        match parseArrTailF rem.length rem with
        | some (items, rem2) =>
          if rem2.dropWhile jsonWsChar = [] then some (str :: items) else none
        | none => none
      | none => none
    | _ => none
  | _ => none

/-!
## Step-grading adapter

Embedding of `evaluateWorkingStepsWithOpenAI`
(`src/utils/supabase-edge.ts`, lines 26-66).  The transport
(`supabase.functions.invoke`) is external; its possible outcomes are an
explicit parameter: the call threw, the call returned `{ error }`, or it
returned a data payload whose arrays may each be missing.
-/

structure StepEvaluationResponse where
  steps : Option (List StepEvaluation)
  modelAnswer : Option (List Str)
  correctPoints : Option (List Str)
  improvementPoints : Option (List Str)
  error : Option Str
deriving DecidableEq, Repr

structure StepEvaluationResult where
  steps : List StepEvaluation
  modelAnswer : List Str
  correctPoints : List Str
  improvementPoints : List Str
deriving DecidableEq, Repr

inductive InvokeOutcome where
  /-- the transport threw an exception -/
  | threw
  /-- `invoke` resolved with a non-null `error` -/
  | invokeError
  /-- `invoke` resolved with `data` and no transport error -/
  | ok (data : StepEvaluationResponse)
deriving DecidableEq, Repr

/-- `response.error` is truthy: present and not the empty string. -/
def jsTruthyStrOpt : Option Str → Bool
  | none => false
  | some s => s ≠ []

def evaluateWorkingStepsWithOpenAI (outcome : InvokeOutcome) :
    Option StepEvaluationResult :=
  match outcome with
  | .threw => none
  | .invokeError => none
  | .ok response =>
    if jsTruthyStrOpt response.error then none
    else some
      { steps := response.steps.getD []
        modelAnswer := response.modelAnswer.getD []
        correctPoints := response.correctPoints.getD []
        improvementPoints := response.improvementPoints.getD [] }

/-!
## Open-ended evaluator

Embedding of `evaluateOpenEnded` (evaluation.ts, lines 245-373).  The
evaluator awaits `evaluateWorkingStepsWithOpenAI`; that call is the
`grader` parameter here (the adapter resolves to a result or `null` and
never throws; a thrown exception would be caught by the surrounding
`try` and behaves exactly like `null`, so `Option` covers both).  The
source's early `return` inside the `if (workingSteps.length > 0 && ...)`
block (taken when every submitted step is blank) becomes the first
branch below; `Math.max(0, stepMarks)` is absorbed by `jsRound`
returning a `Nat`.
-/

/-- The step-grading call:
`(question, cleanWorkingSteps, studentFinalAnswer, correctAnswers)`. -/
abbrev Grader := Question → List Str → Str → List Str → Option StepEvaluationResult

/-- `WORKING_STEPS_KEY_PREFIX = 'working-steps-'`. -/
def workingStepsKeyBase : Str := "working-steps-".toList

/-- Lines 249-261 of `evaluateOpenEnded`: the working steps recovered
from `studentAnswers['working-steps-' + question.id]`; a missing or
empty value, a parse error, or a non-array value all give `[]`. -/
def decodeWorkingSteps (q : Question) (sub : Submission) : List Str :=
  let workingStepsData := lookupOrEmpty sub (workingStepsKeyBase ++ q.id)
  if workingStepsData = [] then []
  else (parseStringArray workingStepsData).getD []

/-- Lines 263-269 of `evaluateOpenEnded`: the correct answer(s) from the
question's answer boxes.  The `else if` arm re-tests `answerBoxes[0]`,
which can only be reached with an empty or missing list, so it never
contributes. -/
def correctAnswersOf (q : Question) : List Str :=
  match q.answerBoxes with
  | some bs =>
    if bs.length > 0 then bs.map (fun b => b.answer)
    else match bs.head? with
      | some b => if b.answer ≠ [] then [b.answer] else []
      | none => []
  | none => []

/-- Lines 271-275 of `evaluateOpenEnded`: the student's final answer is
the last non-empty working step (the last step, or `''`, when all are
blank). -/
def studentFinalAnswerOf (q : Question) (sub : Submission) : Str :=
  let workingSteps := decodeWorkingSteps q sub
  let nonEmptySteps := workingSteps.filter (fun s => jsTrim s ≠ [])
  if nonEmptySteps.length > 0 then nonEmptySteps.getLast?.getD []
  else workingSteps.getLast?.getD []

/-- Lines 277-282 of `evaluateOpenEnded`: the local final-answer check —
some correct answer exists, the final answer is non-empty, and it matches
any of the correct answers. -/
def finalAnswerCorrectCode (q : Question) (sub : Submission) : Bool :=
  if (correctAnswersOf q).length > 0 ∧ studentFinalAnswerOf q sub ≠ [] then
    (correctAnswersOf q).any
      (fun ca => compareMathExpressions (studentFinalAnswerOf q sub) ca)
  else false

/-- Lines 286-330 of `evaluateOpenEnded`: the step-grading call is made
only when there are working steps and correct answers (a thrown
exception is caught and behaves like `null`, hence `Option`). -/
def stepResultOf (grader : Grader) (q : Question) (sub : Submission) :
    Option StepEvaluationResult :=
  if (decodeWorkingSteps q sub).length > 0 ∧ (correctAnswersOf q).length > 0 then
    grader q ((decodeWorkingSteps q sub).filter (fun s => jsTrim s ≠ []))
      (studentFinalAnswerOf q sub) (correctAnswersOf q)
  else none

def evaluateOpenEnded (grader : Grader) (question : Question)
    (studentAnswers : Submission) : EvaluationResult :=
  let workingSteps := decodeWorkingSteps question studentAnswers
  let correctAnswers := correctAnswersOf question
  -- Final answer = last non-empty working step (last step if all empty)
  let studentFinalAnswer := studentFinalAnswerOf question studentAnswers
  let finalAnswerCorrect : Bool := finalAnswerCorrectCode question studentAnswers
  let maxMarks := maxMarksOf question
  let cleanWorkingSteps := workingSteps.filter (fun s => jsTrim s ≠ [])
  if workingSteps.length > 0 ∧ correctAnswers.length > 0 ∧ cleanWorkingSteps = [] then
    -- all steps were empty: skip AI evaluation (early return in the source)
    { questionId := question.id
      isCorrect := finalAnswerCorrect
      status := if finalAnswerCorrect then .correct else .incorrect
      studentAnswer := .one studentFinalAnswer
      correctAnswer := if correctAnswers.length == 1 then .one (correctAnswers.headD [])
                       else .many correctAnswers
      finalAnswerCorrect := finalAnswerCorrect
      workingSteps := some []
      marksAwarded := if finalAnswerCorrect then maxMarks else 0
      maxMarks := maxMarks
      feedback := if finalAnswerCorrect then "Correct answer!".toList
                  else "Incorrect answer.".toList }
  else
    let stepResult : Option StepEvaluationResult :=
      stepResultOf grader question studentAnswers
    let stepEvaluations : Option (List StepEvaluation) :=
      stepResult.map (fun r => r.steps)
    let aiFeedback : Option AIFeedback :=
      stepResult.map (fun r =>
        { modelAnswer := r.modelAnswer
          correctPoints := r.correctPoints
          improvementPoints := r.improvementPoints })
    let marksAwarded : Nat :=
      if finalAnswerCorrect then maxMarks
      else match stepEvaluations with
        | some evs =>
          if evs.length > 0 then
            let correctStepsCount := evs.countP (fun s => s.isCorrect)
            let totalSteps := evs.length
            jsRound ((correctStepsCount : ℚ) / totalSteps * maxMarks * (7 / 10))
          else 0
        | none => 0
    let status : QStatus :=
      if finalAnswerCorrect then .correct
      else if marksAwarded > 0 then .partiallyCorrect
      else .incorrect
    { questionId := question.id
      isCorrect := finalAnswerCorrect
      status := status
      studentAnswer := .many (workingSteps.filter (fun s => jsTrim s ≠ []))
      correctAnswer := if correctAnswers.length == 1 then .one (correctAnswers.headD [])
                       else .many correctAnswers
      finalAnswerCorrect := finalAnswerCorrect
      workingSteps := stepEvaluations
      aiFeedback := aiFeedback
      marksAwarded := marksAwarded
      maxMarks := maxMarks
      feedback :=
        if status = .correct then "Correct answer!".toList
        else if status = .partiallyCorrect then
          "Partially correct. You got some steps right.".toList
        else "Incorrect answer. Please review your solution.".toList }

/-!
## Quiz aggregator

Embedding of `evaluateQuiz` (evaluation.ts, lines 378-415).  The `for`
loop pushing one result per question becomes a `foldl` that appends; the
`reduce` sums become `foldl`.
-/

structure QuizShape where
  questions : List Question
deriving Repr

/-- Question id to per-question submission
(`Record<string, Record<string, string>>`). -/
abbrev QuizSubmissions := List (Str × Submission)

def evaluateOneQuestion (grader : Grader) (studentAnswers : QuizSubmissions)
    (question : Question) : EvaluationResult :=
  let questionAnswers := (studentAnswers.lookup question.id).getD []
  if question.questionType = some .mcq ∨ question.mcqOptions ≠ none then
    evaluateMCQ question (lookupOrEmpty questionAnswers question.id)
  else if question.questionType = some .fillInTheBlank then
    evaluateFillInTheBlank question questionAnswers
  else
    evaluateOpenEnded grader question questionAnswers

def evaluateQuiz (grader : Grader) (quiz : QuizShape)
    (studentAnswers : QuizSubmissions) : QuizEvaluation :=
  let results := quiz.questions.foldl
    (fun acc q => acc ++ [evaluateOneQuestion grader studentAnswers q]) []
  let totalScore := (results.filter (fun r => r.isCorrect)).length
  let maxScore := results.length
  let totalMarksAwarded : Nat := results.foldl (fun sum r => sum + r.marksAwarded) 0
  let totalMaxMarks : Nat := results.foldl (fun sum r => sum + r.maxMarks) 0
  let percentage :=
    if totalMaxMarks > 0 then
      jsRound ((totalMarksAwarded : ℚ) / totalMaxMarks * 100)
    else 0
  { results := results
    totalScore := totalScore
    maxScore := maxScore
    totalMarksAwarded := totalMarksAwarded
    totalMaxMarks := totalMaxMarks
    percentage := percentage }

/-!
## Specification-side definitions

Standalone definitions used to state properties about the embedding.
-/

/-- Modelled from the spec: `finalAnswerCorrect` is "true iff every
submitted final value matches (via Comparator) its corresponding correct
answer box, in positional order; if the counts of submitted vs. correct
values differ, treat as not matched".  Stated over the list of submitted
final values and the list of correct answer-box expressions. -/
def finalAnswerCorrectSpec (submittedFinals correctAnswers : List Str) : Bool :=
  submittedFinals.length == correctAnswers.length &&
  (submittedFinals.zip correctAnswers).all
    (fun p => compareMathExpressions p.1 p.2)

/-- The number of fill-in-the-blank boxes whose submitted value matches. -/
def fillCorrectCount (boxes : List AnswerBox) (sub : Submission) : Nat :=
  boxes.countP (fun b => compareMathExpressions (lookupOrEmpty sub b.id) b.answer)

/-- Normalized extracted values of a string. -/
def normValues (s : Str) : List Str :=
  (extractValueFromEquation s).map normalizeMathExpression

/-- The deduplicated normalized value set (models the JavaScript `Set`;
only cardinality and membership are used). -/
def normValueSet (s : Str) : List Str := (normValues s).dedup

/-- Every character a replacement string of the normalizer can insert. -/
def repChars : Str := "*/sincostanpitheta()".toList

/-!
## Concrete test inputs

Questions, submissions and graders used to witness the claim theorems on
concrete data.
-/

/-- A grader that always fails (the adapter returned `null`). -/
def graderNone : Grader := fun _ _ _ _ => none

def boxesC1 : List AnswerBox :=
  [⟨"b1".toList, [], "1".toList⟩, ⟨"b2".toList, [], "2".toList⟩]

def qC1 : Question :=
  { id := "q1".toList, instruction := [], questionType := some .openEnded
    answerBoxes := some boxesC1
    mcqOptions := none, marks := some 4 }

/-- One working step `"1"`: its last step matches the first answer box
but there is only one submitted value for two boxes. -/
def subC1 : Submission := [("working-steps-q1".toList, "[\"1\"]".toList)]

def qC2 : Question :=
  { id := "q2".toList, instruction := [], questionType := some .openEnded
    answerBoxes := some [⟨"b1".toList, [], "7".toList⟩]
    mcqOptions := none, marks := some 10 }

/-- Four working steps, none matching the correct answer `7`. -/
def subC2 : Submission :=
  [("working-steps-q2".toList, "[\"s1\",\"s2\",\"s3\",\"s4\"]".toList)]

def mkStepEval (i : Nat) (ok : Bool) : StepEvaluation :=
  ⟨i, [], ok, [], none⟩

/-- External grader reporting 3 of 4 steps correct. -/
def graderThreeOfFour : Grader := fun _ _ _ _ =>
  some ⟨[mkStepEval 0 true, mkStepEval 1 true, mkStepEval 2 true,
         mkStepEval 3 false], [], [], []⟩

def boxesC5 : List AnswerBox :=
  [⟨"a".toList, [], "1".toList⟩, ⟨"b".toList, [], "2".toList⟩]

def qC5 : Question :=
  { id := "q5".toList, instruction := [], questionType := some .fillInTheBlank
    answerBoxes := some boxesC5
    mcqOptions := none, marks := some 3 }

/-- First blank right, second wrong. -/
def subC5 : Submission := [("a".toList, "1".toList), ("b".toList, "9".toList)]

def optsC6 : List MCQOption :=
  [⟨"o1".toList, [], false⟩, ⟨"o2".toList, [], true⟩]

def qC6 : Question :=
  { id := "q6".toList, instruction := [], questionType := some .mcq
    answerBoxes := none
    mcqOptions := some optsC6
    marks := some 2 }

def qC6bad : Question :=
  { id := "q6b".toList, instruction := [], questionType := some .mcq
    answerBoxes := none, mcqOptions := none, marks := some 2 }

def qC8 : Question :=
  { id := "q8".toList, instruction := [], questionType := some .openEnded
    answerBoxes := some [⟨"b1".toList, [], "7".toList⟩]
    mcqOptions := none, marks := some 10 }

/-- Only blank working steps. -/
def subC8 : Submission := [("working-steps-q8".toList, "[\"\",\" \"]".toList)]

def qC10 : Question :=
  { id := "q10".toList, instruction := [], questionType := some .openEnded
    answerBoxes := none, mcqOptions := none, marks := some 5 }

def subC10 : Submission := [("working-steps-q10".toList, "[\"step1\",\"step2\"]".toList)]

/-- A response with a non-empty `error` field. -/
def respC9err : StepEvaluationResponse := ⟨none, none, none, none, some "fail".toList⟩

/-- A successful response in which every array field is missing. -/
def respC9ok : StepEvaluationResponse := ⟨none, none, none, none, none⟩

/-!
## Shared lemmas
-/

theorem foldl_push_eq_map {α β : Type} (f : α → β) (l : List α) (acc : List β) :
    l.foldl (fun a q => a ++ [f q]) acc = acc ++ l.map f := by
  induction l generalizing acc with
  | nil => simp
  | cons x xs ih => simp [List.foldl_cons, ih]

theorem foldl_add_eq_sum {α : Type} (f : α → Nat) (l : List α) (n : Nat) :
    l.foldl (fun s r => s + f r) n = n + (l.map f).sum := by
  induction l generalizing n with
  | nil => simp
  | cons x xs ih => simp [List.foldl_cons, ih, Nat.add_assoc]

theorem any_map_eq {α β : Type} (l : List α) (f : α → β) (p : β → Bool) :
    (l.map f).any p = l.any (fun a => p (f a)) := by
  induction l with
  | nil => rfl
  | cons x xs ih => simp [List.any_cons, ih]

theorem jsRound_eq {x : ℚ} {n : Nat} (h1 : (n : ℚ) ≤ x + 1 / 2)
    (h2 : x + 1 / 2 < n + 1) : jsRound x = n := by
  have hf : ⌊x + 1 / 2⌋ = (n : ℤ) := by
    rw [Int.floor_eq_iff]
    exact ⟨by exact_mod_cast h1, by exact_mod_cast h2⟩
  rw [jsRound, hf]
  exact Int.toNat_natCast n

theorem find?_pred_true {α : Type} {p : α → Bool} :
    ∀ {l : List α} {a : α}, l.find? p = some a → p a = true := by
  intro l
  induction l with
  | nil => intro a h; simp [List.find?] at h
  | cons x xs ih =>
    intro a h
    by_cases hx : p x = true
    · rw [List.find?_cons_of_pos _ hx] at h
      cases h; exact hx
    · rw [List.find?_cons_of_neg _ (by simpa using hx)] at h
      exact ih h

theorem jsToLower_cases (c : Char) :
    jsToLower c = c ∨ ∃ p ∈ lowerPairs, jsToLower c = p.2 := by
  unfold jsToLower
  cases hf : lowerPairs.find? (fun p => p.1 = c) with
  | none => exact Or.inl rfl
  | some p => exact Or.inr ⟨p, List.mem_of_find?_eq_some hf, rfl⟩

theorem jsToLower_idem (c : Char) : jsToLower (jsToLower c) = jsToLower c := by
  rcases jsToLower_cases c with h | ⟨p, hp, h⟩
  · rw [h]; exact h
  · rw [h]
    have hall : lowerPairs.all (fun q => jsToLower q.2 == q.2) = true := by decide
    have := List.all_eq_true.1 hall p hp
    exact eq_of_beq this

theorem isWsChar_jsToLower (c : Char) : isWsChar (jsToLower c) = isWsChar c := by
  unfold jsToLower
  cases hf : lowerPairs.find? (fun p => p.1 = c) with
  | none => rfl
  | some p =>
    have hpm := List.mem_of_find?_eq_some hf
    have hpc0 := find?_pred_true hf
    have hpc : p.1 = c := by simpa using hpc0
    have hall : lowerPairs.all (fun q => !isWsChar q.1 && !isWsChar q.2) = true := by decide
    have h2 := List.all_eq_true.1 hall p hpm
    simp only [Bool.and_eq_true, Bool.not_eq_true'] at h2
    rw [h2.2, ← hpc, h2.1]

theorem mem_replaceAllF {pat rep : Str} {c : Char} :
    ∀ {n : Nat} {s : Str}, c ∈ replaceAllF pat rep n s → c ∈ rep ∨ c ∈ s := by
  intro n
  induction n with
  | zero => exact fun h => Or.inr h
  | succ n ih =>
    intro s
    match s with
    | [] => intro h; simp [replaceAllF] at h
    | d :: rest =>
      simp only [replaceAllF]
      split
      · intro h
        rcases List.mem_append.1 h with h1 | h2
        · exact Or.inl h1
        · rcases ih h2 with h3 | h3
          · exact Or.inl h3
          · exact Or.inr (List.mem_cons_of_mem _ (List.mem_of_mem_drop h3))
      · intro h
        rcases List.mem_cons.1 h with h3 | h3
        · exact Or.inr (h3 ▸ List.mem_cons_self _ _)
        · rcases ih h3 with h4 | h4
          · exact Or.inl h4
          · exact Or.inr (List.mem_cons_of_mem _ h4)

theorem mem_replaceAll {pat rep s : Str} {c : Char}
    (h : c ∈ replaceAll pat rep s) : c ∈ rep ∨ c ∈ s :=
  mem_replaceAllF h

theorem replaceAllF_of_head_not_mem {pat rep : Str}
    (hp : pat.head? = some '\\') :
    ∀ {n : Nat} {s : Str}, '\\' ∉ s → replaceAllF pat rep n s = s := by
  obtain ⟨pt, rfl⟩ : ∃ pt, pat = '\\' :: pt := by
    cases pat with
    | nil => simp at hp
    | cons a t =>
      simp only [List.head?_cons, Option.some.injEq] at hp
      exact ⟨t, by rw [hp]⟩
  intro n
  induction n with
  | zero => intro s _; rfl
  | succ n ih =>
    intro s hs
    match s with
    | [] => rfl
    | d :: rest =>
      have hd : d ≠ '\\' := fun h => hs (h ▸ List.mem_cons_self _ _)
      have hcond : ¬(('\\' :: pt) ≠ [] ∧ ('\\' :: pt).isPrefixOf (d :: rest)) := by
        rintro ⟨-, hpre⟩
        simp only [List.isPrefixOf, Bool.and_eq_true, beq_iff_eq] at hpre
        exact hd hpre.1.symm
      simp only [replaceAllF, if_neg hcond]
      have hrest : '\\' ∉ rest := fun h => hs (List.mem_cons_of_mem _ h)
      rw [ih hrest]

theorem replaceAll_of_head_not_mem {pat rep s : Str}
    (hp : pat.head? = some '\\') (hs : '\\' ∉ s) :
    replaceAll pat rep s = s :=
  replaceAllF_of_head_not_mem hp hs

/-- Character provenance through the replacement chain: every character
of the output comes from the input or from a replacement string. -/
theorem mem_replacementChain {s : Str} {c : Char}
    (h : c ∈ replacementChain s) : c ∈ s ∨ c ∈ repChars := by
  have sub : ∀ l : Str,
      (∀ x ∈ "*".toList, x ∈ repChars) ∧ (∀ x ∈ "/".toList, x ∈ repChars) ∧
      (∀ x ∈ "sin".toList, x ∈ repChars) ∧ (∀ x ∈ "cos".toList, x ∈ repChars) ∧
      (∀ x ∈ "tan".toList, x ∈ repChars) ∧ (∀ x ∈ "pi".toList, x ∈ repChars) ∧
      (∀ x ∈ "theta".toList, x ∈ repChars) ∧ (∀ x ∈ "(".toList, x ∈ repChars) ∧
      (∀ x ∈ ")".toList, x ∈ repChars) := fun _ => by decide
  obtain ⟨h1, h2, h3, h4, h5, h6, h7, h8, h9⟩ := sub []
  unfold replacementChain at h
  rcases mem_replaceAll h with hr | h
  · exact Or.inr (h9 _ hr)
  rcases mem_replaceAll h with hr | h
  · exact Or.inr (h8 _ hr)
  rcases mem_replaceAll h with hr | h
  · exact Or.inr (h7 _ hr)
  rcases mem_replaceAll h with hr | h
  · exact Or.inr (h6 _ hr)
  rcases mem_replaceAll h with hr | h
  · exact Or.inr (h5 _ hr)
  rcases mem_replaceAll h with hr | h
  · exact Or.inr (h4 _ hr)
  rcases mem_replaceAll h with hr | h
  · exact Or.inr (h3 _ hr)
  rcases mem_replaceAll h with hr | h
  · exact Or.inr (h2 _ hr)
  rcases mem_replaceAll h with hr | h
  · exact Or.inr (h1 _ hr)
  rcases mem_replaceAll h with hr | h
  · exact Or.inr (h1 _ hr)
  exact Or.inl h

/-- A backslash-free string passes through the replacement chain
unchanged: every pattern starts with a backslash. -/
theorem replacementChain_of_no_backslash {s : Str} (hs : '\\' ∉ s) :
    replacementChain s = s := by
  simp only [replacementChain]
  rw [replaceAll_of_head_not_mem (by decide) hs,
      replaceAll_of_head_not_mem (by decide) hs,
      replaceAll_of_head_not_mem (by decide) hs,
      replaceAll_of_head_not_mem (by decide) hs,
      replaceAll_of_head_not_mem (by decide) hs,
      replaceAll_of_head_not_mem (by decide) hs,
      replaceAll_of_head_not_mem (by decide) hs,
      replaceAll_of_head_not_mem (by decide) hs,
      replaceAll_of_head_not_mem (by decide) hs,
      replaceAll_of_head_not_mem (by decide) hs]

/-- The normalizer never outputs a whitespace character. -/
theorem not_ws_of_mem_normalize {a : Str} {c : Char}
    (hc : c ∈ normalizeMathExpression a) : isWsChar c = false := by
  unfold normalizeMathExpression at hc
  split at hc
  · simp at hc
  · obtain ⟨d, hd, rfl⟩ := List.mem_map.1 hc
    rw [isWsChar_jsToLower]
    rcases mem_replacementChain hd with h | h
    · have := List.of_mem_filter h
      simpa using this
    · have hall : ∀ x ∈ repChars, isWsChar x = false := by decide
      exact hall _ h

/-- The normalizer output is a fixed point of the character lowering. -/
theorem normalize_map_jsToLower {a : Str} :
    (normalizeMathExpression a).map jsToLower = normalizeMathExpression a := by
  unfold normalizeMathExpression
  split
  · rfl
  · rw [List.map_map]
    exact List.map_congr_left (fun x _ => jsToLower_idem x)

/-!
## Claim theorems
-/

/-- C4, counterexample: `normalizeMathExpression` is not idempotent on
every non-empty string.  On `"\Times"` the first pass only lower-cases
(the case-sensitive pattern `\times` does not match), producing
`"\times"`, which the second pass rewrites to `"*"`. -/
theorem C4_counterexample :
    normalizeMathExpression (normalizeMathExpression "\\Times".toList) ≠
      normalizeMathExpression "\\Times".toList := by decide

/-- C4, amended: for every non-empty expression string `a` whose
normalization contains no backslash, normalization is idempotent:
`normalize (normalize a) = normalize a`.  (A backslash surviving into
the output can combine with adjacent characters into a LaTeX pattern
that only the second pass rewrites, as in the counterexample.) -/
theorem C4_normalize_idempotent_amended (a : Str) (_ha : a ≠ [])
    (hb : '\\' ∉ normalizeMathExpression a) :
    normalizeMathExpression (normalizeMathExpression a) =
      normalizeMathExpression a := by
  by_cases hoe : normalizeMathExpression a = []
  · rw [hoe]
    rfl
  · conv_lhs => rw [normalizeMathExpression]
    rw [if_neg hoe]
    have hfilter : (normalizeMathExpression a).filter (fun c => !isWsChar c)
        = normalizeMathExpression a := by
      rw [List.filter_eq_self]
      intro c hcm
      rw [not_ws_of_mem_normalize hcm]
      rfl
    rw [hfilter, replacementChain_of_no_backslash hb, normalize_map_jsToLower]

/-- C4, witness for the amended theorem at `a = "\times X"`, whose
normalization `"*x"` is backslash-free. -/
theorem C4_normalize_idempotent_amended_witness :
    ("\\times X".toList ≠ ([] : Str) ∧
      '\\' ∉ normalizeMathExpression "\\times X".toList) ∧
    normalizeMathExpression (normalizeMathExpression "\\times X".toList) =
      normalizeMathExpression "\\times X".toList :=
  ⟨by decide, C4_normalize_idempotent_amended _ (by decide) (by decide)⟩

/-- C3, counterexample: the claim asserts
`equivalent("x=-2,-3", "x=-2")` is false (set-size mismatch with no
pairwise fallback match), but the code returns true: the extracted
student values are `["-2", "-3"]`, the correct value is `["-2"]`, the
deduplicated set sizes `2 ≠ 1` route past the set comparison, and the
pairwise fallback matches `-2` against `-2`. -/
theorem C3_counterexample :
    compareMathExpressions "x=-2,-3".toList "x=-2".toList = true := by decide

/-- C3, amended: after the direct normalized comparison, the comparator
compares the two extracted value lists as sets (order-independent,
membership of every correct value) exactly when the deduplicated
normalized value sets have equal size; when the sizes differ it falls
back to pairwise matching (true iff some extracted correct value
normalizes equal to some extracted student value).  In particular
`equivalent("x = -2, -3", "x=-3,-2")` is true, and
`equivalent("x=-2,-3", "x=-2")` is also true, via the pairwise
fallback. -/
theorem C3_set_comparison_amended :
    (∀ s c : Str, s ≠ [] → c ≠ [] →
      extractValueFromEquation s ≠ [] → extractValueFromEquation c ≠ [] →
      (normValueSet s).length = (normValueSet c).length →
      (compareMathExpressions s c = true ↔
        (normalizeMathExpression s = normalizeMathExpression c ∨
         ∀ v ∈ normValueSet c, v ∈ normValueSet s))) ∧
    (∀ s c : Str, s ≠ [] → c ≠ [] →
      (normValueSet s).length ≠ (normValueSet c).length →
      (compareMathExpressions s c = true ↔
        (normalizeMathExpression s = normalizeMathExpression c ∨
         ∃ v ∈ normValues c, v ∈ normValues s))) ∧
    compareMathExpressions "x = -2, -3".toList "x=-3,-2".toList = true ∧
    compareMathExpressions "x=-2,-3".toList "x=-2".toList = true := by
  refine ⟨?_, ?_, by decide, by decide⟩
  · intro s c hs hc hsv hcv hlen
    simp only [compareMathExpressions]
    rw [if_neg (by simp [hs, hc])]
    by_cases hnn : normalizeMathExpression s = normalizeMathExpression c
    · rw [if_pos hnn]
      simp [hnn]
    · rw [if_neg hnn]
      rw [if_pos (by
        simp only [normValueSet, normValues] at hlen
        simp [hlen, List.length_pos.2 hsv, List.length_pos.2 hcv])]
      simp only [List.all_eq_true, decide_eq_true_eq, normValueSet, normValues]
      constructor
      · exact fun h => Or.inr h
      · rintro (h | h)
        · exact absurd h hnn
        · exact h
  · intro s c hs hc hlen
    simp only [compareMathExpressions]
    rw [if_neg (by simp [hs, hc])]
    by_cases hnn : normalizeMathExpression s = normalizeMathExpression c
    · rw [if_pos hnn]
      simp [hnn]
    · rw [if_neg hnn]
      rw [if_neg (by
        simp only [normValueSet, normValues] at hlen
        simp [hlen])]
      simp only [List.any_eq_true, decide_eq_true_eq, normValues, List.mem_map]
      constructor
      · rintro ⟨cv, hcvm, sv, hsvm, h⟩
        exact Or.inr ⟨_, ⟨cv, hcvm, rfl⟩, ⟨sv, hsvm, h⟩⟩
      · rintro (h | ⟨v, ⟨cv, hcvm, rfl⟩, ⟨sv, hsvm, h⟩⟩)
        · exact absurd h hnn
        · exact ⟨cv, hcvm, sv, hsvm, h⟩

/-- C3, witness for the amended theorem: `"x=1,2"` vs `"x=2,1"` have
equal-size value sets and compare true by set membership. -/
theorem C3_set_comparison_amended_witness :
    ("x=1,2".toList ≠ ([] : Str)) ∧
    (normValueSet "x=1,2".toList).length = (normValueSet "x=2,1".toList).length ∧
    (compareMathExpressions "x=1,2".toList "x=2,1".toList = true ↔
      (normalizeMathExpression "x=1,2".toList = normalizeMathExpression "x=2,1".toList ∨
       ∀ v ∈ normValueSet "x=2,1".toList, v ∈ normValueSet "x=1,2".toList)) :=
  ⟨by decide, by decide,
    C3_set_comparison_amended.1 _ _ (by decide) (by decide) (by decide) (by decide)
      (by decide)⟩

/-- C9: the step-grading adapter returns `null` when the transport throws,
when `invoke` reports an error, and when the response carries a (truthy)
`error` field; on success it coerces every missing array field (`steps`,
`modelAnswer`, `correctPoints`, `improvementPoints`) to an empty array. -/
theorem C9_adapter_never_throws :
    evaluateWorkingStepsWithOpenAI .threw = none ∧
    evaluateWorkingStepsWithOpenAI .invokeError = none ∧
    (∀ resp : StepEvaluationResponse, jsTruthyStrOpt resp.error = true →
      evaluateWorkingStepsWithOpenAI (.ok resp) = none) ∧
    (∀ resp : StepEvaluationResponse, jsTruthyStrOpt resp.error = false →
      evaluateWorkingStepsWithOpenAI (.ok resp) =
        some ⟨resp.steps.getD [], resp.modelAnswer.getD [],
              resp.correctPoints.getD [], resp.improvementPoints.getD []⟩) := by
  refine ⟨rfl, rfl, ?_, ?_⟩
  · intro resp h
    simp [evaluateWorkingStepsWithOpenAI, h]
  · intro resp h
    simp [evaluateWorkingStepsWithOpenAI, h]

/-- C9, witness: a successful response with every array field missing is
normalized to empty arrays; a response with `error: "fail"` gives `null`. -/
theorem C9_adapter_never_throws_witness :
    (jsTruthyStrOpt respC9ok.error = false ∧
      evaluateWorkingStepsWithOpenAI (.ok respC9ok) = some ⟨[], [], [], []⟩) ∧
    (jsTruthyStrOpt respC9err.error = true ∧
      evaluateWorkingStepsWithOpenAI (.ok respC9err) = none) :=
  ⟨⟨rfl, C9_adapter_never_throws.2.2.2 respC9ok rfl⟩,
   ⟨rfl, C9_adapter_never_throws.2.2.1 respC9err rfl⟩⟩

/-- C6: MCQ marking is binary — the submission is correct iff the
submitted option id equals the id of the option flagged correct (the
first such option), full `maxMarks` on correct and zero otherwise; a
question without `mcqOptions` yields an incorrect result with zero marks
and diagnostic feedback. -/
theorem C6_mcq_binary (q : Question) (sub : Str) :
    (q.mcqOptions = none →
      (evaluateMCQ q sub).isCorrect = false ∧
      (evaluateMCQ q sub).marksAwarded = 0 ∧
      (evaluateMCQ q sub).status = QStatus.incorrect ∧
      (evaluateMCQ q sub).feedback = "Invalid question format".toList) ∧
    (∀ opts, q.mcqOptions = some opts →
      ((evaluateMCQ q sub).isCorrect =
        match opts.find? (fun o => o.isCorrect) with
        | some o => sub == o.id
        | none => false) ∧
      (evaluateMCQ q sub).marksAwarded =
        (if (evaluateMCQ q sub).isCorrect then maxMarksOf q else 0) ∧
      (evaluateMCQ q sub).status =
        (if (evaluateMCQ q sub).isCorrect then QStatus.correct
         else QStatus.incorrect)) := by
  constructor
  · intro h
    simp [evaluateMCQ, h]
  · intro opts h
    simp only [evaluateMCQ, h]
    cases hf : opts.find? (fun o => o.isCorrect) <;> simp [hf]

/-- C6, witness: submitting the flagged option id `o2` of `qC6` earns the
full 2 marks; `qC6bad` has no options and fails soft. -/
theorem C6_mcq_binary_witness :
    (qC6.mcqOptions = some optsC6 ∧
      (evaluateMCQ qC6 "o2".toList).isCorrect =
        (match optsC6.find? (fun o => o.isCorrect) with
         | some o => "o2".toList == o.id
         | none => false)) ∧
    (qC6bad.mcqOptions = none ∧ (evaluateMCQ qC6bad "o2".toList).marksAwarded = 0) :=
  ⟨⟨rfl, ((C6_mcq_binary qC6 "o2".toList).2 optsC6 rfl).1⟩,
   ⟨rfl, ((C6_mcq_binary qC6bad "o2".toList).1 rfl).2.1⟩⟩

/-- C5: fill-in-the-blank compares each submitted value (looked up by box
id) against the box's correct expression via the comparator, awards
`round(maxMarks * correctCount / totalBoxes)`, and sets status `correct`
iff all boxes match, `incorrect` iff none do, else `partially_correct`;
missing or empty `answerBoxes` give zero marks, `incorrect`, and
diagnostic feedback. -/
theorem C5_fill_in_the_blank (q : Question) (sub : Submission) :
    ((q.answerBoxes = none ∨ q.answerBoxes = some []) →
      (evaluateFillInTheBlank q sub).marksAwarded = 0 ∧
      (evaluateFillInTheBlank q sub).status = QStatus.incorrect ∧
      (evaluateFillInTheBlank q sub).feedback = "Invalid question format".toList) ∧
    (∀ boxes, q.answerBoxes = some boxes → boxes ≠ [] →
      (evaluateFillInTheBlank q sub).marksAwarded =
        jsRound ((maxMarksOf q : ℚ) * fillCorrectCount boxes sub / boxes.length) ∧
      (evaluateFillInTheBlank q sub).status =
        (if fillCorrectCount boxes sub = boxes.length then QStatus.correct
         else if fillCorrectCount boxes sub = 0 then QStatus.incorrect
         else QStatus.partiallyCorrect)) := by
  constructor
  · intro h
    simp [evaluateFillInTheBlank, if_pos h]
  · intro boxes hb hne
    have hlen : 0 < boxes.length := List.length_pos.2 hne
    simp only [evaluateFillInTheBlank, hb, Option.getD_some]
    rw [if_neg (by simp [hne])]
    dsimp only
    constructor
    · rw [if_pos hlen, fillCorrectCount]
      congr 1
      ring
    · simp only [fillCorrectCount, beq_iff_eq]

/-- C5, witness: two boxes, `marks = 3`, exactly one correct:
`marksAwarded = round(3·1/2) = 2` and status `partially_correct`. -/
theorem C5_fill_in_the_blank_witness :
    (qC5.answerBoxes = some boxesC5 ∧ boxesC5 ≠ [] ∧
      (evaluateFillInTheBlank qC5 subC5).marksAwarded =
        jsRound ((maxMarksOf qC5 : ℚ) * fillCorrectCount boxesC5 subC5 / boxesC5.length)) ∧
    (evaluateFillInTheBlank qC5 subC5).marksAwarded = 2 ∧
    (evaluateFillInTheBlank qC5 subC5).status = QStatus.partiallyCorrect := by
  have h := (C5_fill_in_the_blank qC5 subC5).2 boxesC5 rfl (by decide)
  have hcc : fillCorrectCount boxesC5 subC5 = 1 := by decide
  have hlen : boxesC5.length = 2 := by decide
  have hmm : maxMarksOf qC5 = 3 := by decide
  refine ⟨⟨rfl, by decide, h.1⟩, ?_, ?_⟩
  · rw [h.1, hcc, hlen, hmm]
    exact jsRound_eq (by norm_num) (by norm_num)
  · rw [h.2, hcc, hlen]
    decide

/-- C7: the aggregator produces one result per question in declared
order, `totalScore` counts the fully-correct results, the mark totals
are the sums over the results, and
`percentage = round(100 * totalMarksAwarded / totalMaxMarks)`, defined
as `0` when `totalMaxMarks` is `0` — in particular an empty quiz yields
percentage `0`. -/
theorem C7_aggregator (grader : Grader) (quiz : QuizShape) (subs : QuizSubmissions) :
    (evaluateQuiz grader quiz subs).results =
      quiz.questions.map (evaluateOneQuestion grader subs) ∧
    (evaluateQuiz grader quiz subs).totalScore =
      ((evaluateQuiz grader quiz subs).results.filter (fun r => r.isCorrect)).length ∧
    (evaluateQuiz grader quiz subs).maxScore =
      (evaluateQuiz grader quiz subs).results.length ∧
    (evaluateQuiz grader quiz subs).totalMarksAwarded =
      ((evaluateQuiz grader quiz subs).results.map (fun r => r.marksAwarded)).sum ∧
    (evaluateQuiz grader quiz subs).totalMaxMarks =
      ((evaluateQuiz grader quiz subs).results.map (fun r => r.maxMarks)).sum ∧
    (evaluateQuiz grader quiz subs).percentage =
      (if (evaluateQuiz grader quiz subs).totalMaxMarks = 0 then 0
       else jsRound ((100 : ℚ) * (evaluateQuiz grader quiz subs).totalMarksAwarded /
              (evaluateQuiz grader quiz subs).totalMaxMarks)) ∧
    (evaluateQuiz grader ⟨[]⟩ subs).percentage = 0 := by
  refine ⟨?_, rfl, rfl, ?_, ?_, ?_, rfl⟩
  · simp only [evaluateQuiz, foldl_push_eq_map, List.nil_append]
  · simp only [evaluateQuiz, foldl_add_eq_sum, Nat.zero_add]
  · simp only [evaluateQuiz, foldl_add_eq_sum, Nat.zero_add]
  · simp only [evaluateQuiz]
    rcases Nat.eq_zero_or_pos
        ((quiz.questions.foldl
          (fun acc q => acc ++ [evaluateOneQuestion grader subs q]) []).foldl
            (fun sum r => sum + r.maxMarks) 0) with h | h
    · rw [if_neg (by omega), if_pos h]
    · rw [if_pos h, if_neg (by omega)]
      congr 1
      ring

/-- Both return points of `evaluateOpenEnded` carry the same
`finalAnswerCorrect` value: the derived final answer is non-empty, some
correct answer exists, and the final answer matches one of them. -/
theorem evaluateOpenEnded_finalAnswerCorrect (grader : Grader) (q : Question)
    (sub : Submission) :
    (evaluateOpenEnded grader q sub).finalAnswerCorrect =
      (if (correctAnswersOf q).length > 0 ∧ studentFinalAnswerOf q sub ≠ [] then
        (correctAnswersOf q).any
          (fun ca => compareMathExpressions (studentFinalAnswerOf q sub) ca)
      else false) := by
  simp only [evaluateOpenEnded]
  split <;> rfl

/-- C1, counterexample: on a question with two answer boxes (`1`, `2`)
and the single working step `1`, the code sets `finalAnswerCorrect`
(the last step matches *some* box), while the claimed positional
matching is false because one submitted value faces two correct
values. -/
theorem C1_counterexample :
    (evaluateOpenEnded graderNone qC1 subC1).finalAnswerCorrect = true ∧
    finalAnswerCorrectSpec [studentFinalAnswerOf qC1 subC1]
      (boxesC1.map (fun b => b.answer)) = false := by
  constructor
  · decide
  · decide

/-- C1, amended: for an open-ended question with at least one answer
box, `finalAnswerCorrect` is true iff the derived final answer (the last
non-empty working step) is non-empty and matches *at least one* of the
boxes' correct answers via the comparator, regardless of the box count
or order. -/
theorem C1_final_answer_amended (grader : Grader) (q : Question)
    (sub : Submission) (boxes : List AnswerBox)
    (hb : q.answerBoxes = some boxes) (hne : boxes ≠ []) :
    (evaluateOpenEnded grader q sub).finalAnswerCorrect =
      (decide (studentFinalAnswerOf q sub ≠ []) &&
        boxes.any (fun b =>
          compareMathExpressions (studentFinalAnswerOf q sub) b.answer)) := by
  have hca : correctAnswersOf q = boxes.map (fun b => b.answer) := by
    simp only [correctAnswersOf, hb]
    rw [if_pos (List.length_pos.2 hne)]
  rw [evaluateOpenEnded_finalAnswerCorrect, hca]
  by_cases hfa : studentFinalAnswerOf q sub = []
  · rw [if_neg]
    · simp [hfa]
    · rintro ⟨-, h⟩
      exact h hfa
  · rw [if_pos ⟨by simpa using List.length_pos.2 hne, hfa⟩, any_map_eq]
    simp [hfa]

/-- C1, witness for the amended theorem on the counterexample data. -/
theorem C1_final_answer_amended_witness :
    (qC1.answerBoxes = some boxesC1 ∧ boxesC1 ≠ []) ∧
    (evaluateOpenEnded graderNone qC1 subC1).finalAnswerCorrect =
      (decide (studentFinalAnswerOf qC1 subC1 ≠ []) &&
        boxesC1.any (fun b =>
          compareMathExpressions (studentFinalAnswerOf qC1 subC1) b.answer)) :=
  ⟨⟨rfl, by decide⟩,
    C1_final_answer_amended graderNone qC1 subC1 boxesC1 rfl (by decide)⟩

/-- C2: open-ended marking — full `maxMarks` when the final answer
matched; otherwise `round(maxMarks * 0.7 * correctSteps / totalSteps)`
when step grading returned at least one step evaluation and `0` when it
returned none; status is `correct` when the final answer matched,
`partially_correct` when any marks were awarded, else `incorrect`. -/
theorem C2_open_ended_marks_status (grader : Grader) (q : Question)
    (sub : Submission) :
    ((evaluateOpenEnded grader q sub).finalAnswerCorrect = true →
      (evaluateOpenEnded grader q sub).marksAwarded = maxMarksOf q) ∧
    ((evaluateOpenEnded grader q sub).finalAnswerCorrect = false →
      (evaluateOpenEnded grader q sub).marksAwarded =
        (match (evaluateOpenEnded grader q sub).workingSteps with
         | some evs =>
           if evs.length > 0 then
             jsRound ((maxMarksOf q : ℚ) * (7 / 10) *
               (evs.countP (fun s => s.isCorrect)) / evs.length)
           else 0
         | none => 0)) ∧
    (evaluateOpenEnded grader q sub).status =
      (if (evaluateOpenEnded grader q sub).finalAnswerCorrect = true then
        QStatus.correct
      else if (evaluateOpenEnded grader q sub).marksAwarded > 0 then
        QStatus.partiallyCorrect
      else QStatus.incorrect) := by
  simp only [evaluateOpenEnded]
  split
  · cases hF : finalAnswerCorrectCode q sub <;> simp [hF]
  · cases hF : finalAnswerCorrectCode q sub
    · cases hsr : stepResultOf grader q sub with
      | none => simp [hF, hsr]
      | some r =>
        rcases Nat.eq_zero_or_pos r.steps.length with h0 | h0
        · simp [hF, hsr, h0, List.length_eq_zero.1 h0]
        · have harg :
              ((r.steps.countP (fun s => s.isCorrect)) : ℚ) / (r.steps.length : ℚ)
                  * (maxMarksOf q : ℚ) * (7 / 10) =
                (maxMarksOf q : ℚ) * (7 / 10)
                  * ((r.steps.countP (fun s => s.isCorrect)) : ℚ)
                  / (r.steps.length : ℚ) := by
            ring
          refine ⟨?_, ?_, ?_⟩
          · intro hcontra
            simp at hcontra
          · intro
            simp [hF, hsr, h0, harg]
          · simp [hF, hsr]
    · simp [hF]

/-- C2, witness: wrong final answer, grader reports 3 of 4 steps
correct, `marks = 10`: `marksAwarded = round(10 * 0.7 * 3/4) = 5` and
status `partially_correct`. -/
theorem C2_open_ended_marks_status_witness :
    (evaluateOpenEnded graderThreeOfFour qC2 subC2).finalAnswerCorrect = false ∧
    (evaluateOpenEnded graderThreeOfFour qC2 subC2).marksAwarded = 5 ∧
    (evaluateOpenEnded graderThreeOfFour qC2 subC2).status =
      QStatus.partiallyCorrect := by
  have hFf : (evaluateOpenEnded graderThreeOfFour qC2 subC2).finalAnswerCorrect
      = false := by decide
  have hws : (evaluateOpenEnded graderThreeOfFour qC2 subC2).workingSteps =
      some [mkStepEval 0 true, mkStepEval 1 true, mkStepEval 2 true,
            mkStepEval 3 false] := by decide
  have h := C2_open_ended_marks_status graderThreeOfFour qC2 subC2
  have hm : (evaluateOpenEnded graderThreeOfFour qC2 subC2).marksAwarded = 5 := by
    rw [h.2.1 hFf, hws]
    have hcount : ([mkStepEval 0 true, mkStepEval 1 true, mkStepEval 2 true,
        mkStepEval 3 false].countP (fun s => s.isCorrect)) = 3 := by decide
    have hmm : maxMarksOf qC2 = 10 := by decide
    simp only [hcount, hmm]
    norm_num
    exact jsRound_eq (by norm_num) (by norm_num)
  refine ⟨hFf, hm, ?_⟩
  rw [h.2.2, hFf, hm]
  simp

/-- C8: when every submitted working step is blank, the evaluation is
the same for every step-grading function (the external call is skipped),
and marks are all-or-nothing on the local final-answer check. -/
theorem C8_blank_steps_skip_grader (g1 g2 : Grader) (q : Question)
    (sub : Submission)
    (h : ∀ s ∈ decodeWorkingSteps q sub, jsTrim s = []) :
    evaluateOpenEnded g1 q sub = evaluateOpenEnded g2 q sub ∧
    (evaluateOpenEnded g1 q sub).marksAwarded =
      (if (evaluateOpenEnded g1 q sub).finalAnswerCorrect = true then
        maxMarksOf q
      else 0) := by
  have hclean : (decodeWorkingSteps q sub).filter (fun s => jsTrim s ≠ []) = [] := by
    rw [List.filter_eq_nil_iff]
    intro a ha
    simp [h a ha]
  by_cases hcond : (decodeWorkingSteps q sub).length > 0 ∧
      (correctAnswersOf q).length > 0
  · have hcondfull : (decodeWorkingSteps q sub).length > 0 ∧
        (correctAnswersOf q).length > 0 ∧
        (decodeWorkingSteps q sub).filter (fun s => jsTrim s ≠ []) = [] :=
      ⟨hcond.1, hcond.2, hclean⟩
    constructor
    · simp only [evaluateOpenEnded]
      rw [if_pos hcondfull, if_pos hcondfull]
    · simp only [evaluateOpenEnded]
      rw [if_pos hcondfull]
  · have hsr : ∀ g : Grader, stepResultOf g q sub = none := fun g => if_neg hcond
    have hnc : ¬((decodeWorkingSteps q sub).length > 0 ∧
        (correctAnswersOf q).length > 0 ∧
        (decodeWorkingSteps q sub).filter (fun s => jsTrim s ≠ []) = []) := by
      rintro ⟨h1, h2, -⟩
      exact hcond ⟨h1, h2⟩
    constructor
    · simp only [evaluateOpenEnded, hsr]
    · simp only [evaluateOpenEnded, hsr]
      rw [if_neg hnc]
      simp

/-- C8, witness: submission `["", " "]` of only blank steps — a grader
reporting steps and a failing grader give identical results, and the
wrong final answer yields zero marks. -/
theorem C8_blank_steps_skip_grader_witness :
    (∀ s ∈ decodeWorkingSteps qC8 subC8, jsTrim s = []) ∧
    evaluateOpenEnded graderThreeOfFour qC8 subC8 =
      evaluateOpenEnded graderNone qC8 subC8 ∧
    (evaluateOpenEnded graderThreeOfFour qC8 subC8).marksAwarded =
      (if (evaluateOpenEnded graderThreeOfFour qC8 subC8).finalAnswerCorrect = true
       then maxMarksOf qC8 else 0) :=
  ⟨by decide,
    (C8_blank_steps_skip_grader graderThreeOfFour graderNone qC8 subC8 (by decide)).1,
    (C8_blank_steps_skip_grader graderThreeOfFour graderNone qC8 subC8 (by decide)).2⟩

/-- C10: an open-ended question with no (or empty) `answerBoxes` always
evaluates to `finalAnswerCorrect = false`, zero marks and status
`incorrect`, and the step-grading function is never consulted. -/
theorem C10_no_answer_boxes (g1 g2 : Grader) (q : Question) (sub : Submission)
    (h : q.answerBoxes = none ∨ q.answerBoxes = some []) :
    (evaluateOpenEnded g1 q sub).finalAnswerCorrect = false ∧
    (evaluateOpenEnded g1 q sub).marksAwarded = 0 ∧
    (evaluateOpenEnded g1 q sub).status = QStatus.incorrect ∧
    evaluateOpenEnded g1 q sub = evaluateOpenEnded g2 q sub := by
  have hca : correctAnswersOf q = [] := by
    rcases h with h | h <;> simp [correctAnswersOf, h]
  have hF : finalAnswerCorrectCode q sub = false := by
    rw [finalAnswerCorrectCode, hca]
    simp
  have hsr : ∀ g : Grader, stepResultOf g q sub = none := fun g => by
    rw [stepResultOf, hca]
    simp
  have hnc : ¬((decodeWorkingSteps q sub).length > 0 ∧
      (correctAnswersOf q).length > 0 ∧
      (decodeWorkingSteps q sub).filter (fun s => jsTrim s ≠ []) = []) := by
    rw [hca]
    rintro ⟨-, h2, -⟩
    simp at h2
  simp only [evaluateOpenEnded]
  rw [if_neg hnc, if_neg hnc]
  refine ⟨by simp [hF], by simp [hF, hsr g1], by simp [hF, hsr g1], by rw [hsr g1, hsr g2]⟩

/-- C10, witness: a boxless question with two working steps — results
agree across graders, with zero marks and status `incorrect`. -/
theorem C10_no_answer_boxes_witness :
    (qC10.answerBoxes = none ∨ qC10.answerBoxes = some []) ∧
    (evaluateOpenEnded graderThreeOfFour qC10 subC10).finalAnswerCorrect = false ∧
    (evaluateOpenEnded graderThreeOfFour qC10 subC10).marksAwarded = 0 ∧
    (evaluateOpenEnded graderThreeOfFour qC10 subC10).status = QStatus.incorrect ∧
    evaluateOpenEnded graderThreeOfFour qC10 subC10 =
      evaluateOpenEnded graderNone qC10 subC10 :=
  ⟨Or.inl rfl,
    C10_no_answer_boxes graderThreeOfFour graderNone qC10 subC10 (Or.inl rfl)⟩

end MathType
